import Mathlib

/-!
Verification of the streaming codec implementations of rust-encoding
(`src/codec/japanese.rs` and `src/codec/singlebyte.rs`).

The Rust code is embedded shallowly:

* bytes and code points are `Nat` (with `% 256` at every `as u8` cast of a
  possibly-wider value);
* the external lookup tables (`index::jis0208`, `index::jis0212`, and the
  per-page single-byte tables) are passed as explicit function parameters,
  mirroring the Rust module references / function pointers;
* the mutable decoder state (`first`/`second` for EUC-JP, `lead` for
  Shift-JIS) is threaded explicitly;
* a `raw_feed` call returns either `.ok state output processed err` —
  mirroring the Rust `(uint, Option<CodecError>)` return value plus the
  characters written to the output writer and the final decoder state — or
  `.crash state output` for an out-of-bounds slice index (a Rust task
  failure), which aborts the call without returning.

The `while` loops of the Rust decoders are written as recursions over the
remaining input list, with `i` the absolute index of the head of the
remaining list in the original chunk.  Inside the Rust loops the variable
`processed` always equals the index at which the current iteration started,
so error returns inside the loop report `processed = i`.
-/

namespace RustEncoding

/-- The `CodecError { upto, cause }` record from `types.rs`: `upto` is the
input-relative fault offset, `cause` the diagnostic tag. -/
structure CodecError where
  upto : Nat
  cause : String
deriving DecidableEq, Repr

/-- Result of one `raw_feed` call on a decoder with state type `σ`:
either a normal return carrying the final state, the code points written to
the output writer, the `processed` count and the optional error, or a crash
(Rust task failure from an out-of-bounds slice index). -/
inductive DecOut (σ : Type) where
  | ok (state : σ) (output : List Nat) (processed : Nat) (err : Option CodecError)
  | crash (state : σ) (output : List Nat)
deriving DecidableEq, Repr

/-- Prepend already-written output in front of the output of the rest of a
feed call (the Rust code writes to the sink as it goes). -/
def DecOut.prependOut {σ : Type} (pre : List Nat) : DecOut σ → DecOut σ
  | .ok s o p e => .ok s (pre ++ o) p e
  | .crash s o => .crash s (pre ++ o)

/-- The two external JIS index tables used by `japanese.rs`:
`forward`/`backward` of `index::jis0208` and `forward` of `index::jis0212`.
They are parameters of the embedding, exactly as they are external
collaborators of the Rust code. -/
structure JPTables where
  fwd0208 : Nat → Nat
  bwd0208 : Nat → Nat
  fwd0212 : Nat → Nat

/-- The decoder state `EUCJPDecoder { first: u8, second: u8 }`. -/
structure EUCJPDecoder where
  first : Nat
  second : Nat
deriving DecidableEq, Repr

/-- The decoder state `ShiftJISDecoder { lead: u8 }`. -/
structure ShiftJISDecoder where
  lead : Nat
deriving DecidableEq, Repr

/-- The inner `map_two_0208_bytes` of `EUCJPDecoder::raw_feed`: bytes in
0xA1–0xFE on both positions form the matrix coordinate
`(lead-0xA1)*94 + trail-0xA1`, anything else gives the sentinel index
0xFFFF; the result is looked up through `index0208::forward`. -/
def map_two_0208_bytes (t : JPTables) (lead trail : Nat) : Nat :=
  t.fwd0208 (if 0xa1 ≤ lead ∧ lead ≤ 0xfe ∧ 0xa1 ≤ trail ∧ trail ≤ 0xfe
             then (lead - 0xa1) * 94 + trail - 0xa1 else 0xffff)

/-- The inner `map_two_0212_bytes` of `EUCJPDecoder::raw_feed`: same coordinate
arithmetic, looked up through `index0212::forward`. -/
def map_two_0212_bytes (t : JPTables) (lead trail : Nat) : Nat :=
  t.fwd0212 (if 0xa1 ≤ lead ∧ lead ≤ 0xfe ∧ 0xa1 ≤ trail ∧ trail ≤ 0xfe
             then (lead - 0xa1) * 94 + trail - 0xa1 else 0xffff)

/-- The `while i < len` loop of `EUCJPDecoder::raw_feed` (lines 137–193).
`rest` is `input[i..]`; on entry to the loop (and to each iteration)
`processed = i` and `self.first = self.second = 0`.  Reading `input[i]`
past the end of the chunk (line 155, reached when the chunk ends right
after the first of the two JIS X 0212 coordinate bytes) is a crash. -/
def eucjp_feed_loop (t : JPTables) (i : Nat) : List Nat → DecOut EUCJPDecoder
  | [] => .ok ⟨0, 0⟩ [] i none
  | b :: rest =>
    if b ≤ 0x7f then
      (eucjp_feed_loop t (i + 1) rest).prependOut [b]
    else if b = 0x8e ∨ b = 0x8f ∨ (0xa1 ≤ b ∧ b ≤ 0xfe) then
      match rest with
      | [] => .ok ⟨b, 0⟩ [] i none
      | b2 :: rest2 =>
        if b = 0x8e ∧ 0xa1 ≤ b2 ∧ b2 ≤ 0xdf then
          (eucjp_feed_loop t (i + 2) rest2).prependOut [0xff61 + b2 - 0xa1]
        else if b = 0x8f ∧ 0xa1 ≤ b2 ∧ b2 ≤ 0xfe then
          match rest2 with
          | [] => .crash ⟨0, 0⟩ []
          | b3 :: rest3 =>
            let ch := map_two_0212_bytes t b2 b3
            if ch = 0xffff then
              .ok ⟨0, 0⟩ [] i (some ⟨i + 2, "invalid sequence"⟩)
            else
              (eucjp_feed_loop t (i + 3) rest3).prependOut [ch]
        else if (0xa1 ≤ b ∧ b ≤ 0xfe) ∧ (0xa1 ≤ b2 ∧ b2 ≤ 0xfe) then
          let ch := map_two_0208_bytes t b b2
          if ch = 0xffff then
            .ok ⟨0, 0⟩ [] i (some ⟨i + 1, "invalid sequence"⟩)
          else
            (eucjp_feed_loop t (i + 2) rest2).prependOut [ch]
        else
          .ok ⟨0, 0⟩ [] i
            (some ⟨if b2 < 0xa1 ∨ 0xfe < b2 then i + 1 else i + 2, "invalid sequence"⟩)
    else
      .ok ⟨0, 0⟩ [] i (some ⟨i + 1, "invalid sequence"⟩)

/-- The `self.second != 0` resumption section of `EUCJPDecoder::raw_feed`
(lines 122–132) followed by the reset (lines 134–136) and the main loop.
`st` is the decoder state as mutated by the first section, `i` the current
index and `rest = input[i..]`.  Note that when `rest` is empty the reset at
lines 134–135 still runs, discarding any pending state. -/
def eucjp_feed_second (t : JPTables) (st : EUCJPDecoder) (i : Nat)
    (rest : List Nat) : DecOut EUCJPDecoder :=
  match rest with
  | [] => eucjp_feed_loop t i []
  | bi :: rest2 =>
    if st.second ≠ 0 then
      let ch := map_two_0212_bytes t st.second bi
      if ch = 0xffff then
        .ok ⟨st.first, 0⟩ [] 0 (some ⟨i, "invalid sequence"⟩)
      else
        (eucjp_feed_loop t (i + 1) rest2).prependOut [ch]
    else
      eucjp_feed_loop t i (bi :: rest2)

/-- The whole of `EUCJPDecoder::raw_feed` (lines 71–195): the `self.first != 0`
resumption section (lines 98–120), then `eucjp_feed_second`. -/
def EUCJPDecoder.raw_feed (t : JPTables) (st : EUCJPDecoder)
    (input : List Nat) : DecOut EUCJPDecoder :=
  match input with
  | [] => eucjp_feed_loop t 0 []
  | b0 :: rest =>
    if st.first ≠ 0 then
      if st.first = 0x8e ∧ 0xa1 ≤ b0 ∧ b0 ≤ 0xdf then
        (eucjp_feed_second t st 1 rest).prependOut [0xff61 + b0 - 0xa1]
      else if st.first = 0x8f then
        eucjp_feed_second t ⟨0, b0⟩ 1 rest
      else
        let ch := map_two_0208_bytes t st.first b0
        if ch = 0xffff then
          .ok ⟨0, st.second⟩ [] 0 (some ⟨0, "invalid sequence"⟩)
        else
          (eucjp_feed_second t st 1 rest).prependOut [ch]
    else
      eucjp_feed_second t st 0 (b0 :: rest)

/-- The finalizer `EUCJPDecoder::raw_finish` (lines 197–203): it writes nothing to the
output (first component) and errors exactly when a carry slot is set. -/
def EUCJPDecoder.raw_finish (st : EUCJPDecoder) : List Nat × Option CodecError :=
  ([], if st.second ≠ 0 ∨ st.first ≠ 0
       then some ⟨0, "incomplete sequence"⟩ else none)

/-- The inner `map_two_0208_bytes` of `ShiftJISDecoder::raw_feed` (lines 313–326):
Shift-JIS lead/trail ranges with the row-pair offset arithmetic, looked up
through `index0208::forward`. -/
def sjis_map_two_0208_bytes (t : JPTables) (lead trail : Nat) : Nat :=
  t.fwd0208
    (if ((0x81 ≤ lead ∧ lead ≤ 0x9f) ∨ (0xe0 ≤ lead ∧ lead ≤ 0xfc)) ∧
        ((0x40 ≤ trail ∧ trail ≤ 0x7e) ∨ (0x80 ≤ trail ∧ trail ≤ 0xfc)) then
       (lead - (if lead < 0xa0 then 0x81 else 0xc1)) * 188 +
         trail - (if trail < 0x7f then 0x40 else 0x41)
     else 0xffff)

/-- The `while i < len` loop of `ShiftJISDecoder::raw_feed`
(lines 346–376). -/
def sjis_feed_loop (t : JPTables) (i : Nat) : List Nat → DecOut ShiftJISDecoder
  | [] => .ok ⟨0⟩ [] i none
  | b :: rest =>
    if b ≤ 0x7f then
      (sjis_feed_loop t (i + 1) rest).prependOut [b]
    else if 0xa1 ≤ b ∧ b ≤ 0xdf then
      (sjis_feed_loop t (i + 1) rest).prependOut [0xff61 + b - 0xa1]
    else if (0x81 ≤ b ∧ b ≤ 0x9f) ∨ (0xe0 ≤ b ∧ b ≤ 0xfc) then
      match rest with
      | [] => .ok ⟨b⟩ [] i none
      | b2 :: rest2 =>
        let ch := sjis_map_two_0208_bytes t b b2
        if ch = 0xffff then
          .ok ⟨0⟩ [] i (some ⟨i + 1, "invalid sequence"⟩)
        else
          (sjis_feed_loop t (i + 2) rest2).prependOut [ch]
    else
      .ok ⟨0⟩ [] i (some ⟨i + 1, "invalid sequence"⟩)

/-- The whole of `ShiftJISDecoder::raw_feed` (lines 310–378): the `self.lead != 0`
resumption section (lines 332–342), the reset (line 344) and the loop. -/
def ShiftJISDecoder.raw_feed (t : JPTables) (st : ShiftJISDecoder)
    (input : List Nat) : DecOut ShiftJISDecoder :=
  match input with
  | [] => sjis_feed_loop t 0 []
  | b0 :: rest =>
    if st.lead ≠ 0 then
      let ch := sjis_map_two_0208_bytes t st.lead b0
      if ch = 0xffff then
        .ok ⟨0⟩ [] 0 (some ⟨0, "invalid sequence"⟩)
      else
        (sjis_feed_loop t 1 rest).prependOut [ch]
    else
      sjis_feed_loop t 0 (b0 :: rest)

/-- The finalizer `ShiftJISDecoder::raw_finish` (lines 380–386). -/
def ShiftJISDecoder.raw_finish (st : ShiftJISDecoder) :
    List Nat × Option CodecError :=
  ([], if st.lead ≠ 0 then some ⟨0, "incomplete sequence"⟩ else none)

/-- Number of UTF-8 bytes of a Unicode scalar value: the encoders iterate a
Rust `&str` with `index_iter()`, whose positions are UTF-8 byte offsets. -/
def utf8Len (c : Nat) : Nat :=
  if c ≤ 0x7f then 1 else if c ≤ 0x7ff then 2 else if c ≤ 0xffff then 3 else 4

/-- UTF-8 byte length of a whole string (Rust `input.len()` on a `&str`). -/
def utf8Length (cs : List Nat) : Nat := (cs.map utf8Len).sum

/-- Prepend already-written bytes in front of the rest of an encoder feed
result `(output bytes, consumed, error)`. -/
def encPrepend (pre : List Nat) (r : List Nat × Nat × Option CodecError) :
    List Nat × Nat × Option CodecError :=
  (pre ++ r.1, r.2.1, r.2.2)

/-- The character loop of `EUCJPEncoder::raw_feed` (lines 30–53).  `p` is
the UTF-8 byte offset of the head of `cs` in the input string, so an error
at the head reports `(p, upto = p + utf8Len c)` and a completed loop
returns `input.len() = ` final `p`. -/
def eucjp_enc_loop (t : JPTables) (p : Nat) :
    List Nat → List Nat × Nat × Option CodecError
  | [] => ([], p, none)
  | c :: cs =>
    if c ≤ 0x7f then
      encPrepend [c] (eucjp_enc_loop t (p + utf8Len c) cs)
    else if c = 0xa5 then
      encPrepend [0x5c] (eucjp_enc_loop t (p + utf8Len c) cs)
    else if c = 0x203e then
      encPrepend [0x7e] (eucjp_enc_loop t (p + utf8Len c) cs)
    else if 0xff61 ≤ c ∧ c ≤ 0xff9f then
      encPrepend [0x8e, (c - 0xff61 + 0xa1) % 256] (eucjp_enc_loop t (p + utf8Len c) cs)
    else
      let ptr := t.bwd0208 c
      if ptr = 0xffff then
        ([], p, some ⟨p + utf8Len c, "unrepresentable character"⟩)
      else
        encPrepend [(ptr / 94 + 0xa1) % 256, (ptr % 94 + 0xa1) % 256]
          (eucjp_enc_loop t (p + utf8Len c) cs)

/-- The whole of `EUCJPEncoder::raw_feed`; the encoder is stateless. -/
def EUCJPEncoder.raw_feed (t : JPTables) (input : List Nat) :
    List Nat × Nat × Option CodecError :=
  eucjp_enc_loop t 0 input

/-- The character loop of `ShiftJISEncoder::raw_feed` (lines 268–295).
Note the first arm covers `'\u0000'..'\u0080'` inclusive. -/
def sjis_enc_loop (t : JPTables) (p : Nat) :
    List Nat → List Nat × Nat × Option CodecError
  | [] => ([], p, none)
  | c :: cs =>
    if c ≤ 0x80 then
      encPrepend [c] (sjis_enc_loop t (p + utf8Len c) cs)
    else if c = 0xa5 then
      encPrepend [0x5c] (sjis_enc_loop t (p + utf8Len c) cs)
    else if c = 0x203e then
      encPrepend [0x7e] (sjis_enc_loop t (p + utf8Len c) cs)
    else if 0xff61 ≤ c ∧ c ≤ 0xff9f then
      encPrepend [(c - 0xff61 + 0xa1) % 256] (sjis_enc_loop t (p + utf8Len c) cs)
    else
      let ptr := t.bwd0208 c
      if ptr = 0xffff then
        ([], p, some ⟨p + utf8Len c, "unrepresentable character"⟩)
      else
        let lead := ptr / 188
        let leadoffset := if lead < 0x1f then 0x81 else 0xc1
        let trail := ptr % 188
        let trailoffset := if trail < 0x3f then 0x40 else 0x41
        encPrepend [(lead + leadoffset) % 256, (trail + trailoffset) % 256]
          (sjis_enc_loop t (p + utf8Len c) cs)

/-- The whole of `ShiftJISEncoder::raw_feed`; the encoder is stateless. -/
def ShiftJISEncoder.raw_feed (t : JPTables) (input : List Nat) :
    List Nat × Nat × Option CodecError :=
  sjis_enc_loop t 0 input

/-- The external table pair of a single-byte code page
(`index_forward : fn(u8) -> u16`, `index_backward : fn(u16) -> u8`). -/
structure SBTables where
  index_forward : Nat → Nat
  index_backward : Nat → Nat

/-- The character loop of `SingleByteEncoder::raw_feed`
(`singlebyte.rs` lines 30–50), with `p` the UTF-8 byte offset of the head
of `cs`.  `(index + 0x80) as u8` wraps modulo 256. -/
def singlebyte_enc_loop (t : SBTables) (p : Nat) :
    List Nat → List Nat × Nat × Option CodecError
  | [] => ([], p, none)
  | c :: cs =>
    if c ≤ 0x7f then
      encPrepend [c] (singlebyte_enc_loop t (p + utf8Len c) cs)
    else if c ≤ 0xffff ∧ t.index_backward c ≠ 0xff then
      encPrepend [(t.index_backward c + 0x80) % 256]
        (singlebyte_enc_loop t (p + utf8Len c) cs)
    else
      ([], p, some ⟨p + utf8Len c, "unrepresentable character"⟩)

/-- The whole of `SingleByteEncoder::raw_feed`; stateless. -/
def SingleByteEncoder.raw_feed (t : SBTables) (input : List Nat) :
    List Nat × Nat × Option CodecError :=
  singlebyte_enc_loop t 0 input

/-- The byte loop of `SingleByteDecoder::raw_feed`
(`singlebyte.rs` lines 65–86); `i` is the index of the head of the
remaining input.  On error it returns `(i, Some { upto: i+1 })`. -/
def singlebyte_dec_loop (t : SBTables) (i : Nat) :
    List Nat → List Nat × Nat × Option CodecError
  | [] => ([], i, none)
  | b :: rest =>
    if b ≤ 0x7f then
      encPrepend [b] (singlebyte_dec_loop t (i + 1) rest)
    else
      let ch := t.index_forward (b - 0x80)
      if ch ≠ 0xffff then
        encPrepend [ch] (singlebyte_dec_loop t (i + 1) rest)
      else
        ([], i, some ⟨i + 1, "invalid sequence"⟩)

/-- The whole of `SingleByteDecoder::raw_feed`; stateless. -/
def SingleByteDecoder.raw_feed (t : SBTables) (input : List Nat) :
    List Nat × Nat × Option CodecError :=
  singlebyte_dec_loop t 0 input

/-- The finalizers `SingleByteEncoder::raw_finish` / `SingleByteDecoder::raw_finish` and
the encoder `raw_finish` of both Japanese codecs: no output, no error. -/
def stateless_raw_finish : List Nat × Option CodecError := ([], none)

/-- Modelled from the spec: the JIS X 0208 / X 0212 `forward`/`backward`
tables are external collaborators (generated index tables outside the two
embedded source files).  This concrete instance records exactly the
mappings pinned down by the spec's concrete cases (§8): EUC-JP
`[0xA4,0xCB,0xA4,0xDB,0xA4,0xF3] ↔ "にほん"`, Shift-JIS
`[0x93,0xFA,0x96,0x7B] ↔ "日本"` (coordinates 3569 and 4007, consistent
with the EUC-JP bytes `[0xC6,0xFC,0xCB,0xDC]`), the X 0212 triple
`[0x8F,0xCB,0xC6] → U+736C` and the X 0208 pair `[0xEC,0xB8] → U+8C78`;
every other
coordinate and code point is unmapped (sentinel 0xFFFF). -/
def modelTables : JPTables where
  fwd0208 := fun i =>
    if i = 324 then 0x306b
    else if i = 340 then 0x307b
    else if i = 364 then 0x3093
    else if i = 3569 then 0x65e5
    else if i = 4007 then 0x672c
    else if i = 7073 then 0x8c78
    else 0xffff
  bwd0208 := fun c =>
    if c = 0x306b then 324
    else if c = 0x307b then 340
    else if c = 0x3093 then 364
    else if c = 0x65e5 then 3569
    else if c = 0x672c then 4007
    else if c = 0x8c78 then 7073
    else 0xffff
  fwd0212 := fun i =>
    if i = 3985 then 0x736c
    else 0xffff

/-- Modelled from the spec: the ISO-8859-2 single-byte table is an external
collaborator; the spec's concrete case (§8) only requires that U+FFFF has
no backward mapping (sentinel 0xFF).  All non-ASCII code points are left
unmapped here. -/
def modelSBTables : SBTables where
  index_forward := fun _ => 0xffff
  index_backward := fun _ => 0xff

/-- Carry-slot well-formedness for the EUC-JP decoder (spec §3): each slot
is the no-carry sentinel 0 or a byte ≥ 0x80. -/
def EUCJPDecoder.goodCarry (st : EUCJPDecoder) : Prop :=
  (st.first = 0 ∨ 0x80 ≤ st.first) ∧ (st.second = 0 ∨ 0x80 ≤ st.second)

instance (st : EUCJPDecoder) : Decidable st.goodCarry := by
  unfold EUCJPDecoder.goodCarry; infer_instance

/-- Carry-slot well-formedness for the Shift-JIS decoder. -/
def ShiftJISDecoder.goodCarry (st : ShiftJISDecoder) : Prop :=
  st.lead = 0 ∨ 0x80 ≤ st.lead

instance (st : ShiftJISDecoder) : Decidable st.goodCarry := by
  unfold ShiftJISDecoder.goodCarry; infer_instance

/-- Number of bytes held in the EUC-JP carry state. -/
def EUCJPDecoder.carrySize (st : EUCJPDecoder) : Nat :=
  (if st.first = 0 then 0 else 1) + (if st.second = 0 then 0 else 1)

/-- Number of bytes held in the Shift-JIS carry state. -/
def ShiftJISDecoder.carrySize (st : ShiftJISDecoder) : Nat :=
  if st.lead = 0 then 0 else 1

/-- A code point the single-byte encoder translates without error:
ASCII, or a 16-bit code unit with a mapped backward index
(`singlebyte.rs` lines 33–44). -/
def sbRepresentable (t : SBTables) (c : Nat) : Prop :=
  c ≤ 0x7f ∨ (c ≤ 0xffff ∧ t.index_backward c ≠ 0xff)

instance (t : SBTables) (c : Nat) : Decidable (sbRepresentable t c) := by
  unfold sbRepresentable; infer_instance

/-- The byte the single-byte encoder emits for a representable code
point. -/
def sbEncChar (t : SBTables) (c : Nat) : Nat :=
  if c ≤ 0x7f then c else (t.index_backward c + 0x80) % 256

/-- A single-byte page with one non-ASCII mapping (U+0100 at index 0x20),
used to exercise the mapped-index arm on a concrete input. -/
def testSBTables : SBTables where
  index_forward := fun i => if i = 0x20 then 0x100 else 0xffff
  index_backward := fun c => if c = 0x100 then 0x20 else 0xff

/-! ## Helper lemmas -/

theorem prependOut_ok {σ : Type} {r : DecOut σ} {pre out : List Nat}
    {st : σ} {p : Nat} {e : Option CodecError}
    (h : r.prependOut pre = .ok st out p e) :
    ∃ out₂, r = .ok st out₂ p e ∧ out = pre ++ out₂ := by
  cases r with
  | ok s o q e' =>
    simp only [DecOut.prependOut] at h
    cases h
    exact ⟨o, rfl, rfl⟩
  | crash s o => simp [DecOut.prependOut] at h

/-- Invariant of the EUC-JP main loop: any normal return leaves a
well-formed carry (each slot 0 or ≥ 0x80), and a no-error return has
consumed the whole remaining input except the bytes newly stored as
carry. -/
theorem eucjp_feed_loop_ok (t : JPTables) (i0 : Nat) (rest0 : List Nat) :
    ∀ (st : EUCJPDecoder) (out : List Nat) (p : Nat) (e : Option CodecError),
      eucjp_feed_loop t i0 rest0 = .ok st out p e →
      st.goodCarry ∧ (e = none → p + st.carrySize = i0 + rest0.length) := by
  induction i0, rest0 using eucjp_feed_loop.induct t with
  | case1 i =>
    intro st out p e h
    rw [eucjp_feed_loop.eq_def] at h
    dsimp only at h
    cases h
    exact ⟨⟨Or.inl rfl, Or.inl rfl⟩, fun _ => rfl⟩
  | case2 i b rest hb ih =>
    intro st out p e h
    rw [eucjp_feed_loop.eq_def] at h
    dsimp only at h
    rw [if_pos hb] at h
    obtain ⟨o2, h2, rfl⟩ := prependOut_ok h
    obtain ⟨hg, hc⟩ := ih st o2 p e h2
    refine ⟨hg, fun he => ?_⟩
    have := hc he
    simp only [List.length_cons]
    omega
  | case3 i b hb harm =>
    intro st out p e h
    rw [eucjp_feed_loop.eq_def] at h
    dsimp only at h
    rw [if_neg hb, if_pos harm] at h
    cases h
    refine ⟨⟨Or.inr (show (0x80 : Nat) ≤ b by omega), Or.inl rfl⟩, fun _ => ?_⟩
    have hb0 : ¬ b = 0 := by omega
    simp [EUCJPDecoder.carrySize, hb0]
  | case4 i b hb harm b2 rest hkat ih =>
    intro st out p e h
    rw [eucjp_feed_loop.eq_def] at h
    dsimp only at h
    rw [if_neg hb, if_pos harm, if_pos hkat] at h
    obtain ⟨o2, h2, rfl⟩ := prependOut_ok h
    obtain ⟨hg, hc⟩ := ih st o2 p e h2
    refine ⟨hg, fun he => ?_⟩
    have := hc he
    simp only [List.length_cons]
    omega
  | case5 i b hb harm b2 hnk h8f =>
    intro st out p e h
    rw [eucjp_feed_loop.eq_def] at h
    dsimp only at h
    rw [if_neg hb, if_pos harm, if_neg hnk, if_pos h8f] at h
    exact DecOut.noConfusion h
  | case6 i b hb harm b2 hnk h8f b3 rest ch hch =>
    intro st out p e h
    rw [eucjp_feed_loop.eq_def] at h
    dsimp only at h
    rw [if_neg hb, if_pos harm, if_neg hnk, if_pos h8f,
        if_pos (show map_two_0212_bytes t b2 b3 = 65535 from hch)] at h
    cases h
    exact ⟨⟨Or.inl rfl, Or.inl rfl⟩, fun he => Option.noConfusion he⟩
  | case7 i b hb harm b2 hnk h8f b3 rest ch hch ih =>
    intro st out p e h
    rw [eucjp_feed_loop.eq_def] at h
    dsimp only at h
    rw [if_neg hb, if_pos harm, if_neg hnk, if_pos h8f,
        if_neg (show ¬ map_two_0212_bytes t b2 b3 = 65535 from hch)] at h
    obtain ⟨o2, h2, rfl⟩ := prependOut_ok h
    obtain ⟨hg, hc⟩ := ih st o2 p e h2
    refine ⟨hg, fun he => ?_⟩
    have := hc he
    simp only [List.length_cons]
    omega
  | case8 i b hb harm b2 rest hnk hn8f hpair ch hch =>
    intro st out p e h
    rw [eucjp_feed_loop.eq_def] at h
    dsimp only at h
    rw [if_neg hb, if_pos harm, if_neg hnk, if_neg hn8f, if_pos hpair,
        if_pos (show map_two_0208_bytes t b b2 = 65535 from hch)] at h
    cases h
    exact ⟨⟨Or.inl rfl, Or.inl rfl⟩, fun he => Option.noConfusion he⟩
  | case9 i b hb harm b2 rest hnk hn8f hpair ch hch ih =>
    intro st out p e h
    rw [eucjp_feed_loop.eq_def] at h
    dsimp only at h
    rw [if_neg hb, if_pos harm, if_neg hnk, if_neg hn8f, if_pos hpair,
        if_neg (show ¬ map_two_0208_bytes t b b2 = 65535 from hch)] at h
    obtain ⟨o2, h2, rfl⟩ := prependOut_ok h
    obtain ⟨hg, hc⟩ := ih st o2 p e h2
    refine ⟨hg, fun he => ?_⟩
    have := hc he
    simp only [List.length_cons]
    omega
  | case10 i b hb harm b2 rest hnk hn8f hnp =>
    intro st out p e h
    rw [eucjp_feed_loop.eq_def] at h
    dsimp only at h
    rw [if_neg hb, if_pos harm, if_neg hnk, if_neg hn8f, if_neg hnp] at h
    cases h
    exact ⟨⟨Or.inl rfl, Or.inl rfl⟩, fun he => Option.noConfusion he⟩
  | case11 i b rest hb harm =>
    intro st out p e h
    rw [eucjp_feed_loop.eq_def] at h
    dsimp only at h
    rw [if_neg hb, if_neg harm] at h
    cases h
    exact ⟨⟨Or.inl rfl, Or.inl rfl⟩, fun he => Option.noConfusion he⟩

/-- Invariant of the `second != 0` resumption section plus main loop. -/
theorem eucjp_feed_second_ok (t : JPTables) (st0 : EUCJPDecoder) (i : Nat)
    (rest : List Nat) (st : EUCJPDecoder) (out : List Nat) (p : Nat)
    (e : Option CodecError)
    (h : eucjp_feed_second t st0 i rest = .ok st out p e) :
    ((st0.first = 0 ∨ 0x80 ≤ st0.first) → st.goodCarry) ∧
      (e = none → p + st.carrySize = i + rest.length) := by
  cases rest with
  | nil =>
    obtain ⟨hg, hc⟩ := eucjp_feed_loop_ok t i [] st out p e h
    exact ⟨fun _ => hg, hc⟩
  | cons bi rest2 =>
    rw [eucjp_feed_second] at h
    by_cases hs : st0.second ≠ 0
    · rw [if_pos hs] at h
      dsimp only at h
      by_cases hch : map_two_0212_bytes t st0.second bi = 0xffff
      · rw [if_pos hch] at h
        cases h
        exact ⟨fun hf => ⟨hf, Or.inl rfl⟩, fun he => Option.noConfusion he⟩
      · rw [if_neg hch] at h
        obtain ⟨o2, h2, rfl⟩ := prependOut_ok h
        obtain ⟨hg, hc⟩ := eucjp_feed_loop_ok t (i + 1) rest2 st o2 p e h2
        refine ⟨fun _ => hg, fun he => ?_⟩
        have := hc he
        simp only [List.length_cons]
        omega
    · rw [if_neg hs] at h
      obtain ⟨hg, hc⟩ := eucjp_feed_loop_ok t i (bi :: rest2) st out p e h
      exact ⟨fun _ => hg, hc⟩

/-- Invariant of a whole EUC-JP `raw_feed` call: a well-formed entry carry
yields a well-formed exit carry, and a no-error return consumes the whole
chunk except the bytes newly stored as carry. -/
theorem eucjp_raw_feed_ok (t : JPTables) (st0 : EUCJPDecoder)
    (input : List Nat) (st : EUCJPDecoder) (out : List Nat) (p : Nat)
    (e : Option CodecError)
    (h : EUCJPDecoder.raw_feed t st0 input = .ok st out p e) :
    (st0.goodCarry → st.goodCarry) ∧
      (e = none → p + st.carrySize = input.length) := by
  cases input with
  | nil =>
    obtain ⟨hg, hc⟩ := eucjp_feed_loop_ok t 0 [] st out p e h
    exact ⟨fun _ => hg, hc⟩
  | cons b0 rest =>
    rw [EUCJPDecoder.raw_feed] at h
    by_cases hf : st0.first ≠ 0
    · rw [if_pos hf] at h
      by_cases hkat : st0.first = 0x8e ∧ 0xa1 ≤ b0 ∧ b0 ≤ 0xdf
      · rw [if_pos hkat] at h
        obtain ⟨o2, h2, rfl⟩ := prependOut_ok h
        obtain ⟨hg, hc⟩ := eucjp_feed_second_ok t st0 1 rest st o2 p e h2
        refine ⟨fun hg0 => hg hg0.1, fun he => ?_⟩
        have := hc he
        simp only [List.length_cons]
        omega
      · rw [if_neg hkat] at h
        by_cases h8f : st0.first = 0x8f
        · rw [if_pos h8f] at h
          obtain ⟨hg, hc⟩ := eucjp_feed_second_ok t ⟨0, b0⟩ 1 rest st out p e h
          refine ⟨fun _ => hg (Or.inl rfl), fun he => ?_⟩
          have := hc he
          simp only [List.length_cons]
          omega
        · rw [if_neg h8f] at h
          dsimp only at h
          by_cases hch : map_two_0208_bytes t st0.first b0 = 0xffff
          · rw [if_pos hch] at h
            cases h
            exact ⟨fun hg0 => ⟨Or.inl rfl, hg0.2⟩, fun he => Option.noConfusion he⟩
          · rw [if_neg hch] at h
            obtain ⟨o2, h2, rfl⟩ := prependOut_ok h
            obtain ⟨hg, hc⟩ := eucjp_feed_second_ok t st0 1 rest st o2 p e h2
            refine ⟨fun hg0 => hg hg0.1, fun he => ?_⟩
            have := hc he
            simp only [List.length_cons]
            omega
    · rw [if_neg hf] at h
      obtain ⟨hg, hc⟩ := eucjp_feed_second_ok t st0 0 (b0 :: rest) st out p e h
      exact ⟨fun hg0 => hg hg0.1, fun he => (hc he).trans (Nat.zero_add _)⟩

/-- Invariant of the Shift-JIS main loop, analogous to
`eucjp_feed_loop_ok`. -/
theorem sjis_feed_loop_ok (t : JPTables) (i0 : Nat) (rest0 : List Nat) :
    ∀ (st : ShiftJISDecoder) (out : List Nat) (p : Nat) (e : Option CodecError),
      sjis_feed_loop t i0 rest0 = .ok st out p e →
      st.goodCarry ∧ (e = none → p + st.carrySize = i0 + rest0.length) := by
  induction i0, rest0 using sjis_feed_loop.induct t with
  | case1 i =>
    intro st out p e h
    rw [sjis_feed_loop.eq_def] at h
    dsimp only at h
    cases h
    exact ⟨Or.inl rfl, fun _ => rfl⟩
  | case2 i b rest hb ih =>
    intro st out p e h
    rw [sjis_feed_loop.eq_def] at h
    dsimp only at h
    rw [if_pos hb] at h
    obtain ⟨o2, h2, rfl⟩ := prependOut_ok h
    obtain ⟨hg, hc⟩ := ih st o2 p e h2
    refine ⟨hg, fun he => ?_⟩
    have := hc he
    simp only [List.length_cons]
    omega
  | case3 i b rest hb hkat ih =>
    intro st out p e h
    rw [sjis_feed_loop.eq_def] at h
    dsimp only at h
    rw [if_neg hb, if_pos hkat] at h
    obtain ⟨o2, h2, rfl⟩ := prependOut_ok h
    obtain ⟨hg, hc⟩ := ih st o2 p e h2
    refine ⟨hg, fun he => ?_⟩
    have := hc he
    simp only [List.length_cons]
    omega
  | case4 i b hb hnk harm =>
    intro st out p e h
    rw [sjis_feed_loop.eq_def] at h
    dsimp only at h
    rw [if_neg hb, if_neg hnk, if_pos harm] at h
    cases h
    refine ⟨Or.inr (show (0x80 : Nat) ≤ b by omega), fun _ => ?_⟩
    have hb0 : ¬ b = 0 := by omega
    simp [ShiftJISDecoder.carrySize, hb0]
  | case5 i b hb hnk harm b2 rest ch hch =>
    intro st out p e h
    rw [sjis_feed_loop.eq_def] at h
    dsimp only at h
    rw [if_neg hb, if_neg hnk, if_pos harm,
        if_pos (show sjis_map_two_0208_bytes t b b2 = 65535 from hch)] at h
    cases h
    exact ⟨Or.inl rfl, fun he => Option.noConfusion he⟩
  | case6 i b hb hnk harm b2 rest ch hch ih =>
    intro st out p e h
    rw [sjis_feed_loop.eq_def] at h
    dsimp only at h
    rw [if_neg hb, if_neg hnk, if_pos harm,
        if_neg (show ¬ sjis_map_two_0208_bytes t b b2 = 65535 from hch)] at h
    obtain ⟨o2, h2, rfl⟩ := prependOut_ok h
    obtain ⟨hg, hc⟩ := ih st o2 p e h2
    refine ⟨hg, fun he => ?_⟩
    have := hc he
    simp only [List.length_cons]
    omega
  | case7 i b rest hb hnk harm =>
    intro st out p e h
    rw [sjis_feed_loop.eq_def] at h
    dsimp only at h
    rw [if_neg hb, if_neg hnk, if_neg harm] at h
    cases h
    exact ⟨Or.inl rfl, fun he => Option.noConfusion he⟩

/-- Invariant of a whole Shift-JIS `raw_feed` call, analogous to
`eucjp_raw_feed_ok` (here no entry hypothesis is needed at all). -/
theorem sjis_raw_feed_ok (t : JPTables) (st0 : ShiftJISDecoder)
    (input : List Nat) (st : ShiftJISDecoder) (out : List Nat) (p : Nat)
    (e : Option CodecError)
    (h : ShiftJISDecoder.raw_feed t st0 input = .ok st out p e) :
    st.goodCarry ∧ (e = none → p + st.carrySize = input.length) := by
  cases input with
  | nil => exact sjis_feed_loop_ok t 0 [] st out p e h
  | cons b0 rest =>
    rw [show ((b0 :: rest).length) = 0 + (b0 :: rest).length from (Nat.zero_add _).symm]
    rw [ShiftJISDecoder.raw_feed] at h
    by_cases hf : st0.lead ≠ 0
    · rw [if_pos hf] at h
      dsimp only at h
      by_cases hch : sjis_map_two_0208_bytes t st0.lead b0 = 0xffff
      · rw [if_pos hch] at h
        cases h
        exact ⟨Or.inl rfl, fun he => Option.noConfusion he⟩
      · rw [if_neg hch] at h
        obtain ⟨o2, h2, rfl⟩ := prependOut_ok h
        obtain ⟨hg, hc⟩ := sjis_feed_loop_ok t 1 rest st o2 p e h2
        refine ⟨hg, fun he => ?_⟩
        have := hc he
        simp only [List.length_cons]
        omega
    · rw [if_neg hf] at h
      exact sjis_feed_loop_ok t 0 (b0 :: rest) st out p e h


/-- A completed (error-free) EUC-JP encoder loop returns the UTF-8 byte
length of the input string. -/
theorem eucjp_enc_loop_consumed (t : JPTables) :
    ∀ (cs : List Nat) (p : Nat) (out : List Nat) (q : Nat),
      eucjp_enc_loop t p cs = (out, q, none) → q = p + utf8Length cs := by
  intro cs
  induction cs with
  | nil =>
    intro p out q h
    rw [eucjp_enc_loop.eq_def] at h
    dsimp only at h
    cases h
    simp [utf8Length]
  | cons c cs ih =>
    intro p out q h
    rcases hrec : eucjp_enc_loop t (p + utf8Len c) cs with ⟨o2, q2, e2⟩
    rw [eucjp_enc_loop.eq_def] at h
    dsimp only at h
    rw [hrec] at h
    simp only [encPrepend] at h
    split_ifs at h <;>
      first
        | (exfalso
           simp only [Prod.mk.injEq] at h
           exact Option.noConfusion h.2.2)
        | (simp only [Prod.mk.injEq] at h
           obtain ⟨h1, h2, h3⟩ := h
           subst h3
           have hq := ih (p + utf8Len c) o2 q2 hrec
           simp only [utf8Length, List.map_cons, List.sum_cons] at hq ⊢
           omega)

/-- A completed (error-free) Shift-JIS encoder loop returns the UTF-8 byte
length of the input string. -/
theorem sjis_enc_loop_consumed (t : JPTables) :
    ∀ (cs : List Nat) (p : Nat) (out : List Nat) (q : Nat),
      sjis_enc_loop t p cs = (out, q, none) → q = p + utf8Length cs := by
  intro cs
  induction cs with
  | nil =>
    intro p out q h
    rw [sjis_enc_loop.eq_def] at h
    dsimp only at h
    cases h
    simp [utf8Length]
  | cons c cs ih =>
    intro p out q h
    rcases hrec : sjis_enc_loop t (p + utf8Len c) cs with ⟨o2, q2, e2⟩
    rw [sjis_enc_loop.eq_def] at h
    dsimp only at h
    rw [hrec] at h
    simp only [encPrepend] at h
    split_ifs at h <;>
      first
        | (exfalso
           simp only [Prod.mk.injEq] at h
           exact Option.noConfusion h.2.2)
        | (simp only [Prod.mk.injEq] at h
           obtain ⟨h1, h2, h3⟩ := h
           subst h3
           have hq := ih (p + utf8Len c) o2 q2 hrec
           simp only [utf8Length, List.map_cons, List.sum_cons] at hq ⊢
           omega)

/-- A completed (error-free) single-byte encoder loop returns the UTF-8
byte length of the input string. -/
theorem singlebyte_enc_loop_consumed (t : SBTables) :
    ∀ (cs : List Nat) (p : Nat) (out : List Nat) (q : Nat),
      singlebyte_enc_loop t p cs = (out, q, none) → q = p + utf8Length cs := by
  intro cs
  induction cs with
  | nil =>
    intro p out q h
    rw [singlebyte_enc_loop.eq_def] at h
    dsimp only at h
    cases h
    simp [utf8Length]
  | cons c cs ih =>
    intro p out q h
    rcases hrec : singlebyte_enc_loop t (p + utf8Len c) cs with ⟨o2, q2, e2⟩
    rw [singlebyte_enc_loop.eq_def] at h
    dsimp only at h
    rw [hrec] at h
    simp only [encPrepend] at h
    split_ifs at h <;>
      first
        | (exfalso
           simp only [Prod.mk.injEq] at h
           exact Option.noConfusion h.2.2)
        | (simp only [Prod.mk.injEq] at h
           obtain ⟨h1, h2, h3⟩ := h
           subst h3
           have hq := ih (p + utf8Len c) o2 q2 hrec
           simp only [utf8Length, List.map_cons, List.sum_cons] at hq ⊢
           omega)

/-- A completed (error-free) single-byte decoder loop consumes the whole
remaining input. -/
theorem singlebyte_dec_loop_consumed (t : SBTables) :
    ∀ (bs : List Nat) (i : Nat) (out : List Nat) (q : Nat),
      singlebyte_dec_loop t i bs = (out, q, none) → q = i + bs.length := by
  intro bs
  induction bs with
  | nil =>
    intro i out q h
    rw [singlebyte_dec_loop.eq_def] at h
    dsimp only at h
    cases h
    simp
  | cons b bs ih =>
    intro i out q h
    rcases hrec : singlebyte_dec_loop t (i + 1) bs with ⟨o2, q2, e2⟩
    rw [singlebyte_dec_loop.eq_def] at h
    dsimp only at h
    rw [hrec] at h
    simp only [encPrepend] at h
    split_ifs at h <;>
      first
        | (exfalso
           simp only [Prod.mk.injEq] at h
           exact Option.noConfusion h.2.2)
        | (simp only [Prod.mk.injEq] at h
           obtain ⟨h1, h2, h3⟩ := h
           subst h3
           have hq := ih (i + 1) o2 q2 hrec
           simp only [List.length_cons]
           omega)

/-! ## Claims -/

/-- C1: chunk-boundary invariance fails on the code.  Feeding the valid
EUC-JP byte sequence `[0x8F, 0xCB, 0xC6]` (the JIS X 0212 triple for
U+736C) as one chunk decodes it with an empty final carry, but feeding it
byte by byte decodes nothing and ends with carry `first = 0xC6`: the feed
of `[0xCB]` stores the pending coordinate byte in `second` (line 105) and
then unconditionally wipes it (lines 134–135) before returning. -/
theorem c1_chunk_split_changes_result :
    EUCJPDecoder.raw_feed modelTables ⟨0, 0⟩ [0x8f, 0xcb, 0xc6] =
      .ok ⟨0, 0⟩ [0x736c] 3 none ∧
    EUCJPDecoder.raw_feed modelTables ⟨0, 0⟩ [0x8f] = .ok ⟨0x8f, 0⟩ [] 0 none ∧
    EUCJPDecoder.raw_feed modelTables ⟨0x8f, 0⟩ [0xcb] = .ok ⟨0, 0⟩ [] 1 none ∧
    EUCJPDecoder.raw_feed modelTables ⟨0, 0⟩ [0xc6] = .ok ⟨0xc6, 0⟩ [] 0 none ∧
    (([] : List Nat) ≠ [0x736c]) ∧
    ((⟨0xc6, 0⟩ : EUCJPDecoder) ≠ ⟨0, 0⟩) := by
  decide

/-- C2: a chunk ending after the first of the two JIS X 0212 coordinate
bytes does not store the byte as carry: line 155 (`self.second = input[i]`
with `i = len`) indexes past the end of the chunk, so the feed call
crashes (Rust task failure) instead of returning without error. -/
theorem c2_truncated_0212_chunk_crashes :
    EUCJPDecoder.raw_feed modelTables ⟨0, 0⟩ [0x8f, 0xcb] = .crash ⟨0, 0⟩ [] := by
  decide

/-- C3 counterexample: feeding the EUC-JP decoder the single byte `0x8E`
returns without error, yet `consumed_count = 0 ≠ 1 = chunk.length` (the
trailing lead byte is stored as carry, not counted as processed). -/
theorem c3_counterexample :
    EUCJPDecoder.raw_feed modelTables ⟨0, 0⟩ [0x8e] = .ok ⟨0x8e, 0⟩ [] 0 none ∧
    (0 : Nat) ≠ [(0x8e : Nat)].length := by
  decide

/-- C4 counterexample: the round trip fails exactly at the code points the
claim singles out.  EUC-JP encodes U+00A5 as the ASCII byte `0x5C`, which
decodes back to U+005C ≠ U+00A5 (likewise U+203E → `0x7E` → U+007E), and
Shift-JIS encodes U+0080 as the raw byte `0x80`, which its decoder rejects
as an invalid sequence. -/
theorem c4_counterexample :
    EUCJPEncoder.raw_feed modelTables [0xa5] = ([0x5c], 2, none) ∧
    EUCJPDecoder.raw_feed modelTables ⟨0, 0⟩ [0x5c] = .ok ⟨0, 0⟩ [0x5c] 1 none ∧
    ((0x5c : Nat) ≠ 0xa5) ∧
    EUCJPEncoder.raw_feed modelTables [0x203e] = ([0x7e], 3, none) ∧
    EUCJPDecoder.raw_feed modelTables ⟨0, 0⟩ [0x7e] = .ok ⟨0, 0⟩ [0x7e] 1 none ∧
    ((0x7e : Nat) ≠ 0x203e) ∧
    ShiftJISEncoder.raw_feed modelTables [0x80] = ([0x80], 2, none) ∧
    ShiftJISDecoder.raw_feed modelTables ⟨0⟩ [0x80] =
      .ok ⟨0⟩ [] 0 (some ⟨1, "invalid sequence"⟩) := by
  decide

/-- C5 counterexample: for the two-byte lead `0xAA` followed by the
in-range trail `0xA1`, the matrix coordinate `9*94 = 846` is unmapped, and
the reported fault offset is `upto = 1`, which excludes the trail byte (a
fault including it would be `upto = 2`, as the decoder reports elsewhere,
e.g. `upto = i+1` for a one-byte invalid lead). -/
theorem c5_counterexample :
    EUCJPDecoder.raw_feed modelTables ⟨0, 0⟩ [0xaa, 0xa1] =
      .ok ⟨0, 0⟩ [] 0 (some ⟨1, "invalid sequence"⟩) ∧
    EUCJPDecoder.raw_feed modelTables ⟨0, 0⟩ [0xaa, 0xa1] ≠
      .ok ⟨0, 0⟩ [] 0 (some ⟨2, "invalid sequence"⟩) := by
  decide

/-- C10: feeding an empty chunk to either stateful decoder returns
`(0, no error)`, appends nothing, and unconditionally resets the carry
state to empty (lines 134–135 and 344 run before the length check),
discarding any pending bytes. -/
theorem c10_empty_chunk_resets_carry :
    ∀ (t : JPTables) (st : EUCJPDecoder) (sj : ShiftJISDecoder),
      EUCJPDecoder.raw_feed t st [] = .ok ⟨0, 0⟩ [] 0 none ∧
      ShiftJISDecoder.raw_feed t sj [] = .ok ⟨0⟩ [] 0 none := by
  intro t st sj
  exact ⟨rfl, rfl⟩

/-- C7: for every codec, `raw_finish` appends nothing and returns the
"incomplete sequence" error exactly when the carry state is non-empty
(encoders and the single-byte codec are stateless and never error);
in particular feeding EUC-JP the single byte `0x8E` and finalizing yields
the incomplete-sequence error. -/
theorem c7_finalize_iff_carry :
    (∀ st : EUCJPDecoder,
       st.raw_finish.1 = [] ∧
       (st.raw_finish.2 = some ⟨0, "incomplete sequence"⟩ ↔
         (st.first ≠ 0 ∨ st.second ≠ 0)) ∧
       (st.raw_finish.2 = none ↔ (st.first = 0 ∧ st.second = 0))) ∧
    (∀ st : ShiftJISDecoder,
       st.raw_finish.1 = [] ∧
       (st.raw_finish.2 = some ⟨0, "incomplete sequence"⟩ ↔ st.lead ≠ 0) ∧
       (st.raw_finish.2 = none ↔ st.lead = 0)) ∧
    stateless_raw_finish = ([], none) ∧
    EUCJPDecoder.raw_feed modelTables ⟨0, 0⟩ [0x8e] = .ok ⟨0x8e, 0⟩ [] 0 none ∧
    EUCJPDecoder.raw_finish ⟨0x8e, 0⟩ = ([], some ⟨0, "incomplete sequence"⟩) := by
  refine ⟨fun st => ⟨rfl, ?_, ?_⟩, fun st => ⟨rfl, ?_, ?_⟩, rfl, by decide, by decide⟩
  · simp only [EUCJPDecoder.raw_finish]
    by_cases h : st.second ≠ 0 ∨ st.first ≠ 0
    · rw [if_pos h]; simp; tauto
    · rw [if_neg h]; simp; tauto
  · simp only [EUCJPDecoder.raw_finish]
    by_cases h : st.second ≠ 0 ∨ st.first ≠ 0
    · rw [if_pos h]; simp; tauto
    · rw [if_neg h]; simp; tauto
  · simp only [ShiftJISDecoder.raw_finish]
    by_cases h : st.lead ≠ 0
    · rw [if_pos h]; simp [h]
    · rw [if_neg h]; simp; tauto
  · simp only [ShiftJISDecoder.raw_finish]
    by_cases h : st.lead ≠ 0
    · rw [if_pos h]; simp [h]
    · rw [if_neg h]; simp; tauto

/-- The Shift-JIS decoder's coordinate arithmetic inverts the encoder's:
for any in-range matrix coordinate, applying `map_two_0208_bytes` of
`ShiftJISDecoder::raw_feed` to the byte pair built by
`ShiftJISEncoder::raw_feed` recovers `forward(ptr)`. -/
theorem sjis_ptr_inverts (t : JPTables) (ptr : Nat) (h : ptr < 8836) :
    sjis_map_two_0208_bytes t
      (ptr / 188 + (if ptr / 188 < 0x1f then 0x81 else 0xc1))
      (ptr % 188 + (if ptr % 188 < 0x3f then 0x40 else 0x41)) = t.fwd0208 ptr := by
  unfold sjis_map_two_0208_bytes
  split_ifs <;> exact congrArg t.fwd0208 (by omega)

/-- C5 amended: in the EUC-JP fresh-byte loop, a two-byte JIS X 0208 lead
followed by a malformed or unmapped trail reports a fault whose offset
excludes the trailing byte in both cases: `upto = i + 1` (one past the
lead only), whether the trail is outside 0xA1–0xFE or in range with an
unmapped coordinate. -/
theorem c5_amended_resync (t : JPTables) (i lead trail : Nat) (rest : List Nat)
    (h1 : 0xa1 ≤ lead) (h2 : lead ≤ 0xfe)
    (h3 : (trail < 0xa1 ∨ 0xfe < trail) ∨
          (0xa1 ≤ trail ∧ trail ≤ 0xfe ∧
           t.fwd0208 ((lead - 0xa1) * 94 + trail - 0xa1) = 0xffff)) :
    eucjp_feed_loop t i (lead :: trail :: rest) =
      .ok ⟨0, 0⟩ [] i (some ⟨i + 1, "invalid sequence"⟩) := by
  rw [eucjp_feed_loop.eq_def]
  dsimp only
  rw [if_neg (by omega : ¬ lead ≤ 0x7f),
      if_pos (Or.inr (Or.inr ⟨h1, h2⟩)),
      if_neg (by omega : ¬ (lead = 0x8e ∧ 0xa1 ≤ trail ∧ trail ≤ 0xdf)),
      if_neg (by omega : ¬ (lead = 0x8f ∧ 0xa1 ≤ trail ∧ trail ≤ 0xfe))]
  rcases h3 with h3 | ⟨h4, h5, h6⟩
  · rw [if_neg (by omega :
        ¬ ((0xa1 ≤ lead ∧ lead ≤ 0xfe) ∧ 0xa1 ≤ trail ∧ trail ≤ 0xfe)),
       if_pos (by omega : trail < 0xa1 ∨ 0xfe < trail)]
  · rw [if_pos (⟨⟨h1, h2⟩, h4, h5⟩ :
        (0xa1 ≤ lead ∧ lead ≤ 0xfe) ∧ 0xa1 ≤ trail ∧ trail ≤ 0xfe)]
    simp only [map_two_0208_bytes]
    rw [if_pos (⟨h1, h2, h4, h5⟩ :
          0xa1 ≤ lead ∧ lead ≤ 0xfe ∧ 0xa1 ≤ trail ∧ trail ≤ 0xfe), h6,
        if_pos rfl]

/-- C5 amended witness: lead `0xA4` with out-of-range trail `0x41` at
position 5 faults with `upto = 6`, leaving the trail unconsumed. -/
theorem c5_amended_resync_witness :
    eucjp_feed_loop modelTables 5 [0xa4, 0x41, 0x99] =
      .ok ⟨0, 0⟩ [] 5 (some ⟨6, "invalid sequence"⟩) :=
  c5_amended_resync modelTables 5 0xa4 0x41 [0x99] (by decide) (by decide)
    (Or.inl (by decide))

/-- C9: the Shift-JIS encoder maps a backward-looked-up coordinate `ptr`
to the pair `lead = ptr/188 + (0x81 or 0xC1)`, `trail = ptr%188 +
(0x40 or 0x41)`; the decoder's arithmetic inverts this; and on the
concrete vectors, `[0x93,0xFA,0x96,0x7B]` decodes to U+65E5 U+672C and
encoding that string reproduces exactly those bytes. -/
theorem c9_sjis_byte_arithmetic :
    (∀ (t : JPTables) (c : Nat), 0x80 < c → c ≠ 0xa5 → c ≠ 0x203e →
       ¬ (0xff61 ≤ c ∧ c ≤ 0xff9f) → t.bwd0208 c ≠ 0xffff → t.bwd0208 c < 8836 →
       ShiftJISEncoder.raw_feed t [c] =
         ([t.bwd0208 c / 188 + (if t.bwd0208 c / 188 < 0x1f then 0x81 else 0xc1),
           t.bwd0208 c % 188 + (if t.bwd0208 c % 188 < 0x3f then 0x40 else 0x41)],
          utf8Len c, none)) ∧
    (∀ (t : JPTables) (ptr : Nat), ptr < 8836 →
       sjis_map_two_0208_bytes t
         (ptr / 188 + (if ptr / 188 < 0x1f then 0x81 else 0xc1))
         (ptr % 188 + (if ptr % 188 < 0x3f then 0x40 else 0x41)) = t.fwd0208 ptr) ∧
    ShiftJISDecoder.raw_feed modelTables ⟨0⟩ [0x93, 0xfa, 0x96, 0x7b] =
      .ok ⟨0⟩ [0x65e5, 0x672c] 4 none ∧
    ShiftJISEncoder.raw_feed modelTables [0x65e5, 0x672c] =
      ([0x93, 0xfa, 0x96, 0x7b], 6, none) := by
  refine ⟨?_, fun t ptr h => sjis_ptr_inverts t ptr h, by decide, by decide⟩
  intro t c h1 h2 h3 h4 h5 h6
  simp only [ShiftJISEncoder.raw_feed, sjis_enc_loop, encPrepend]
  rw [if_neg (by omega : ¬ c ≤ 0x80), if_neg h2, if_neg h3, if_neg h4, if_neg h5]
  have hlt1 : t.bwd0208 c / 188 + (if t.bwd0208 c / 188 < 0x1f then 0x81 else 0xc1)
      < 256 := by split <;> omega
  have hlt2 : t.bwd0208 c % 188 + (if t.bwd0208 c % 188 < 0x3f then 0x40 else 0x41)
      < 256 := by split <;> omega
  rw [Nat.mod_eq_of_lt hlt1, Nat.mod_eq_of_lt hlt2, Nat.zero_add, List.append_nil]

/-- C9 witness: the arithmetic conjuncts applied to the concrete
coordinates `3569` (U+65E5, bytes `0x93 0xFA`) and `4007` (U+672C, bytes
`0x96 0x7B`). -/
theorem c9_sjis_byte_arithmetic_witness :
    ShiftJISEncoder.raw_feed modelTables [0x65e5] = ([0x93, 0xfa], 3, none) ∧
    sjis_map_two_0208_bytes modelTables 0x96 0x7b = modelTables.fwd0208 4007 :=
  ⟨(c9_sjis_byte_arithmetic.1 modelTables 0x65e5 (by decide) (by decide) (by decide)
      (by decide) (by decide) (by decide)).trans (by decide),
   ((by decide : sjis_map_two_0208_bytes modelTables 0x96 0x7b =
       sjis_map_two_0208_bytes modelTables
         (4007 / 188 + (if 4007 / 188 < 0x1f then 0x81 else 0xc1))
         (4007 % 188 + (if 4007 % 188 < 0x3f then 0x40 else 0x41)))).trans
     (c9_sjis_byte_arithmetic.2.1 modelTables 4007 (by decide))⟩

/-- C3 amended: for every codec, a feed call that returns without error
has `consumed_count = chunk.length −` (number of bytes held in the carry
state at return, i.e. the trailing bytes of an incomplete multi-byte
sequence); for the stateless codecs and whenever no bytes are carried this
is exactly `chunk.length` (stated additively as
`consumed + carrySize = length`; encoder chunk length is the UTF-8 byte
length of the text, as in the Rust `&str`). -/
theorem c3_amended_consumed_plus_carry :
    (∀ (t : JPTables) (st0 : EUCJPDecoder) (input : List Nat)
       (st : EUCJPDecoder) (out : List Nat) (p : Nat),
       EUCJPDecoder.raw_feed t st0 input = .ok st out p none →
       p + st.carrySize = input.length) ∧
    (∀ (t : JPTables) (st0 : ShiftJISDecoder) (input : List Nat)
       (st : ShiftJISDecoder) (out : List Nat) (p : Nat),
       ShiftJISDecoder.raw_feed t st0 input = .ok st out p none →
       p + st.carrySize = input.length) ∧
    (∀ (t : SBTables) (input out : List Nat) (p : Nat),
       SingleByteDecoder.raw_feed t input = (out, p, none) → p = input.length) ∧
    (∀ (t : JPTables) (input out : List Nat) (p : Nat),
       EUCJPEncoder.raw_feed t input = (out, p, none) → p = utf8Length input) ∧
    (∀ (t : JPTables) (input out : List Nat) (p : Nat),
       ShiftJISEncoder.raw_feed t input = (out, p, none) → p = utf8Length input) ∧
    (∀ (t : SBTables) (input out : List Nat) (p : Nat),
       SingleByteEncoder.raw_feed t input = (out, p, none) → p = utf8Length input) := by
  refine ⟨?_, ?_, ?_, ?_, ?_, ?_⟩
  · intro t st0 input st out p h
    exact (eucjp_raw_feed_ok t st0 input st out p none h).2 rfl
  · intro t st0 input st out p h
    exact ((sjis_raw_feed_ok t st0 input st out p none h).2 rfl)
  · intro t input out p h
    exact (singlebyte_dec_loop_consumed t input 0 out p h).trans (Nat.zero_add _)
  · intro t input out p h
    exact (eucjp_enc_loop_consumed t input 0 out p h).trans (Nat.zero_add _)
  · intro t input out p h
    exact (sjis_enc_loop_consumed t input 0 out p h).trans (Nat.zero_add _)
  · intro t input out p h
    exact (singlebyte_enc_loop_consumed t input 0 out p h).trans (Nat.zero_add _)

/-- C3 amended witness: on the chunks `[0x8E]` (EUC-JP) and `[0x93]`
(Shift-JIS), which both return without error carrying one byte, consumed
plus carry equals the chunk length. -/
theorem c3_amended_consumed_plus_carry_witness :
    (0 : Nat) + (⟨0x8e, 0⟩ : EUCJPDecoder).carrySize = [(0x8e : Nat)].length ∧
    (0 : Nat) + (⟨0x93⟩ : ShiftJISDecoder).carrySize = [(0x93 : Nat)].length :=
  ⟨c3_amended_consumed_plus_carry.1 modelTables ⟨0, 0⟩ [0x8e] ⟨0x8e, 0⟩ [] 0
     (by decide),
   c3_amended_consumed_plus_carry.2.1 modelTables ⟨0⟩ [0x93] ⟨0x93⟩ [] 0
     (by decide)⟩

/-- C6: starting from the initial decoder states (which are well formed),
every feed call that returns leaves each carry slot holding either the
sentinel 0 or a byte ≥ 0x80, so 0 is never a legitimately carried byte. -/
theorem c6_carry_slots_zero_or_high :
    ((⟨0, 0⟩ : EUCJPDecoder).goodCarry ∧ (⟨0⟩ : ShiftJISDecoder).goodCarry) ∧
    (∀ (t : JPTables) (st0 : EUCJPDecoder) (input : List Nat)
       (st : EUCJPDecoder) (out : List Nat) (p : Nat) (e : Option CodecError),
       st0.goodCarry → EUCJPDecoder.raw_feed t st0 input = .ok st out p e →
       st.goodCarry) ∧
    (∀ (t : JPTables) (st0 : ShiftJISDecoder) (input : List Nat)
       (st : ShiftJISDecoder) (out : List Nat) (p : Nat) (e : Option CodecError),
       ShiftJISDecoder.raw_feed t st0 input = .ok st out p e →
       st.goodCarry) := by
  refine ⟨⟨⟨Or.inl rfl, Or.inl rfl⟩, Or.inl rfl⟩, ?_, ?_⟩
  · intro t st0 input st out p e hg h
    exact (eucjp_raw_feed_ok t st0 input st out p e h).1 hg
  · intro t st0 input st out p e h
    exact (sjis_raw_feed_ok t st0 input st out p e h).1

/-- C6 witness: after carrying the lead bytes `0x8E` (EUC-JP) and `0x93`
(Shift-JIS) the carry states are well formed. -/
theorem c6_carry_slots_zero_or_high_witness :
    (⟨0x8e, 0⟩ : EUCJPDecoder).goodCarry ∧ (⟨0x93⟩ : ShiftJISDecoder).goodCarry :=
  ⟨c6_carry_slots_zero_or_high.2.1 modelTables ⟨0, 0⟩ [0x8e] ⟨0x8e, 0⟩ [] 0 none
     (by decide) (by decide),
   c6_carry_slots_zero_or_high.2.2 modelTables ⟨0⟩ [0x93] ⟨0x93⟩ [] 0 none
     (by decide)⟩


/-- Error locality of the single-byte encoder loop: a representable prefix
followed by an unrepresentable code point commits exactly the prefix's
bytes and faults at the unrepresentable code point's byte position. -/
theorem singlebyte_enc_loop_err (t : SBTables) :
    ∀ (pre : List Nat) (c : Nat) (cs : List Nat) (p : Nat),
      (∀ x ∈ pre, sbRepresentable t x) → ¬ sbRepresentable t c →
      singlebyte_enc_loop t p (pre ++ c :: cs) =
        (pre.map (sbEncChar t), p + utf8Length pre,
         some ⟨p + utf8Length pre + utf8Len c, "unrepresentable character"⟩) := by
  intro pre
  induction pre with
  | nil =>
    intro c cs p hpre hc
    rw [List.nil_append, singlebyte_enc_loop.eq_def]
    dsimp only
    rw [if_neg (fun h => hc (Or.inl h)), if_neg (fun h => hc (Or.inr h))]
    simp [utf8Length]
  | cons x pre ih =>
    intro c cs p hpre hc
    have hx := hpre x (List.mem_cons_self x pre)
    have hrest : ∀ y ∈ pre, sbRepresentable t y :=
      fun y hy => hpre y (List.mem_cons_of_mem x hy)
    rw [List.cons_append, singlebyte_enc_loop.eq_def]
    dsimp only
    by_cases ha : x ≤ 0x7f
    · rw [if_pos ha, ih c cs (p + utf8Len x) hrest hc]
      simp only [encPrepend, List.map_cons, List.cons_append, Prod.mk.injEq,
                 Option.some.injEq, CodecError.mk.injEq, utf8Length,
                 List.sum_cons, sbEncChar, if_pos ha]
      exact ⟨rfl, by omega, by omega, trivial⟩
    · have hm : x ≤ 0xffff ∧ t.index_backward x ≠ 0xff := by
        rcases hx with h | h
        · exact absurd h ha
        · exact h
      rw [if_neg ha, if_pos hm, ih c cs (p + utf8Len x) hrest hc]
      simp only [encPrepend, List.map_cons, List.cons_append, Prod.mk.injEq,
                 Option.some.injEq, CodecError.mk.injEq, utf8Length,
                 List.sum_cons, sbEncChar, if_neg ha]
      exact ⟨rfl, by omega, by omega, trivial⟩

/-- Decoding a single ASCII byte from the EUC-JP fresh loop. -/
theorem eucjp_loop_ascii_ok (t : JPTables) (c : Nat) (hc : c ≤ 0x7f) :
    eucjp_feed_loop t 0 [c] = .ok ⟨0, 0⟩ [c] 1 none := by
  rw [eucjp_feed_loop.eq_def]
  dsimp only
  rw [if_pos hc]
  rfl

/-- Decoding a half-width-katakana pair `0x8E, b2` from the EUC-JP fresh
loop. -/
theorem eucjp_loop_kat_ok (t : JPTables) (b2 : Nat) (h1 : 0xa1 ≤ b2)
    (h2 : b2 ≤ 0xdf) :
    eucjp_feed_loop t 0 [0x8e, b2] = .ok ⟨0, 0⟩ [0xff61 + b2 - 0xa1] 2 none := by
  rw [eucjp_feed_loop.eq_def]
  dsimp only
  rw [if_neg (by omega : ¬ (0x8e : Nat) ≤ 0x7f), if_pos (Or.inl rfl),
      if_pos (⟨rfl, h1, h2⟩ : (0x8e : Nat) = 0x8e ∧ 0xa1 ≤ b2 ∧ b2 ≤ 0xdf)]
  rfl

/-- Decoding a mapped two-byte JIS X 0208 pair from the EUC-JP fresh
loop. -/
theorem eucjp_loop_pair_ok (t : JPTables) (l tr : Nat) (hl1 : 0xa1 ≤ l)
    (hl2 : l ≤ 0xfe) (ht1 : 0xa1 ≤ tr) (ht2 : tr ≤ 0xfe)
    (hch : t.fwd0208 ((l - 0xa1) * 94 + tr - 0xa1) ≠ 0xffff) :
    eucjp_feed_loop t 0 [l, tr] =
      .ok ⟨0, 0⟩ [t.fwd0208 ((l - 0xa1) * 94 + tr - 0xa1)] 2 none := by
  rw [eucjp_feed_loop.eq_def]
  dsimp only
  rw [if_neg (by omega : ¬ l ≤ 0x7f), if_pos (Or.inr (Or.inr ⟨hl1, hl2⟩)),
      if_neg (by omega : ¬ (l = 0x8e ∧ 0xa1 ≤ tr ∧ tr ≤ 0xdf)),
      if_neg (by omega : ¬ (l = 0x8f ∧ 0xa1 ≤ tr ∧ tr ≤ 0xfe)),
      if_pos (⟨⟨hl1, hl2⟩, ht1, ht2⟩ :
        (0xa1 ≤ l ∧ l ≤ 0xfe) ∧ 0xa1 ≤ tr ∧ tr ≤ 0xfe)]
  simp only [map_two_0208_bytes]
  rw [if_pos (⟨hl1, hl2, ht1, ht2⟩ :
        0xa1 ≤ l ∧ l ≤ 0xfe ∧ 0xa1 ≤ tr ∧ tr ≤ 0xfe)]
  rw [if_neg hch]
  rfl

/-- Decoding a single ASCII byte from the Shift-JIS fresh loop. -/
theorem sjis_loop_ascii_ok (t : JPTables) (c : Nat) (hc : c ≤ 0x7f) :
    sjis_feed_loop t 0 [c] = .ok ⟨0⟩ [c] 1 none := by
  rw [sjis_feed_loop.eq_def]
  dsimp only
  rw [if_pos hc]
  rfl

/-- Decoding a single half-width-katakana byte from the Shift-JIS fresh
loop. -/
theorem sjis_loop_kat_ok (t : JPTables) (b : Nat) (h1 : 0xa1 ≤ b)
    (h2 : b ≤ 0xdf) :
    sjis_feed_loop t 0 [b] = .ok ⟨0⟩ [0xff61 + b - 0xa1] 1 none := by
  rw [sjis_feed_loop.eq_def]
  dsimp only
  rw [if_neg (by omega : ¬ b ≤ 0x7f), if_pos ⟨h1, h2⟩]
  rfl

/-- Decoding a mapped Shift-JIS pair built from a coordinate by the
encoder arithmetic. -/
theorem sjis_loop_pair_ok (t : JPTables) (ptr : Nat) (h : ptr < 8836)
    (hch : t.fwd0208 ptr ≠ 0xffff) :
    sjis_feed_loop t 0
      [ptr / 188 + (if ptr / 188 < 0x1f then 0x81 else 0xc1),
       ptr % 188 + (if ptr % 188 < 0x3f then 0x40 else 0x41)] =
      .ok ⟨0⟩ [t.fwd0208 ptr] 2 none := by
  have hm := sjis_ptr_inverts t ptr h
  rw [sjis_feed_loop.eq_def]
  dsimp only
  rw [if_neg (show ¬ ptr / 188 + (if ptr / 188 < 0x1f then 0x81 else 0xc1) ≤ 0x7f
        by split <;> omega),
      if_neg (show ¬ (0xa1 ≤ ptr / 188 + (if ptr / 188 < 0x1f then 0x81 else 0xc1) ∧
                      ptr / 188 + (if ptr / 188 < 0x1f then 0x81 else 0xc1) ≤ 0xdf)
        by split <;> omega),
      if_pos (show (0x81 ≤ ptr / 188 + (if ptr / 188 < 0x1f then 0x81 else 0xc1) ∧
                    ptr / 188 + (if ptr / 188 < 0x1f then 0x81 else 0xc1) ≤ 0x9f) ∨
                   (0xe0 ≤ ptr / 188 + (if ptr / 188 < 0x1f then 0x81 else 0xc1) ∧
                    ptr / 188 + (if ptr / 188 < 0x1f then 0x81 else 0xc1) ≤ 0xfc) by
        rcases Nat.lt_or_ge (ptr / 188) 0x1f with hq | hq
        · rw [if_pos hq]
          exact Or.inl ⟨by omega, by omega⟩
        · rw [if_neg (by omega)]
          exact Or.inr ⟨by omega, by omega⟩)]
  rw [hm, if_neg hch]
  rfl

/-- A feed from the clean EUC-JP state is the fresh-byte loop. -/
theorem eucjp_raw_feed_clean (t : JPTables) (input : List Nat) :
    EUCJPDecoder.raw_feed t ⟨0, 0⟩ input = eucjp_feed_loop t 0 input := by
  cases input with
  | nil => rfl
  | cons b rest =>
    rw [EUCJPDecoder.raw_feed,
        if_neg (show ¬ (⟨0, 0⟩ : EUCJPDecoder).first ≠ 0 from by decide),
        eucjp_feed_second,
        if_neg (show ¬ (⟨0, 0⟩ : EUCJPDecoder).second ≠ 0 from by decide)]

/-- A feed from the clean Shift-JIS state is the fresh-byte loop. -/
theorem sjis_raw_feed_clean (t : JPTables) (input : List Nat) :
    ShiftJISDecoder.raw_feed t ⟨0⟩ input = sjis_feed_loop t 0 input := by
  cases input with
  | nil => rfl
  | cons b rest =>
    rw [ShiftJISDecoder.raw_feed,
        if_neg (show ¬ (⟨0⟩ : ShiftJISDecoder).lead ≠ 0 from by decide)]


set_option maxRecDepth 4096

/-- C4 amended: the round trip `decode(encode(c)) = c` holds for every
code point the encoder accepts except U+00A5 and U+203E (which encode to
the ASCII bytes 0x5C / 0x7E and decode to U+005C / U+007E) and, for
Shift-JIS, U+0080 (which encodes to the raw byte 0x80 that the decoder
rejects); the table pair must be coherent (`forward(backward(c)) = c` with
the coordinate in `[0, 94*94)`, and `c` is not the sentinel 0xFFFF). -/
theorem c4_amended_roundtrip :
    (∀ (t : JPTables) (c : Nat) (bs : List Nat) (p : Nat),
       (t.bwd0208 c ≠ 0xffff → t.fwd0208 (t.bwd0208 c) = c ∧ t.bwd0208 c < 8836) →
       c ≠ 0xffff → c ≠ 0xa5 → c ≠ 0x203e →
       EUCJPEncoder.raw_feed t [c] = (bs, p, none) →
       EUCJPDecoder.raw_feed t ⟨0, 0⟩ bs = .ok ⟨0, 0⟩ [c] bs.length none) ∧
    (∀ (t : JPTables) (c : Nat) (bs : List Nat) (p : Nat),
       (t.bwd0208 c ≠ 0xffff → t.fwd0208 (t.bwd0208 c) = c ∧ t.bwd0208 c < 8836) →
       c ≠ 0xffff → c ≠ 0xa5 → c ≠ 0x203e → c ≠ 0x80 →
       ShiftJISEncoder.raw_feed t [c] = (bs, p, none) →
       ShiftJISDecoder.raw_feed t ⟨0⟩ bs = .ok ⟨0⟩ [c] bs.length none) := by
  constructor
  · intro t c bs p htab hfff ha5 h203e henc
    rw [EUCJPEncoder.raw_feed, eucjp_enc_loop.eq_def] at henc
    dsimp only at henc
    by_cases hascii : c ≤ 0x7f
    · rw [if_pos hascii,
          show eucjp_enc_loop t (0 + utf8Len c) [] = ([], 0 + utf8Len c, none)
            from rfl] at henc
      simp only [encPrepend, Prod.mk.injEq, List.append_nil] at henc
      obtain ⟨hbs, hp, -⟩ := henc
      subst hbs
      exact (eucjp_raw_feed_clean t [c]).trans (eucjp_loop_ascii_ok t c hascii)
    · by_cases hkat : 0xff61 ≤ c ∧ c ≤ 0xff9f
      · rw [if_neg hascii, if_neg ha5, if_neg h203e, if_pos hkat,
            show eucjp_enc_loop t (0 + utf8Len c) [] = ([], 0 + utf8Len c, none)
              from rfl] at henc
        simp only [encPrepend, Prod.mk.injEq, List.append_nil] at henc
        obtain ⟨hbs, hp, -⟩ := henc
        subst hbs
        rw [show ((c - 0xff61 + 0xa1) % 256) = c - 0xff61 + 0xa1
              from Nat.mod_eq_of_lt (by omega),
            eucjp_raw_feed_clean t [0x8e, c - 0xff61 + 0xa1],
            eucjp_loop_kat_ok t (c - 0xff61 + 0xa1) (by omega) (by omega),
            show 0xff61 + (c - 0xff61 + 0xa1) - 0xa1 = c from by omega]
        rfl
      · rw [if_neg hascii, if_neg ha5, if_neg h203e, if_neg hkat] at henc
        by_cases hptr : t.bwd0208 c = 0xffff
        · rw [if_pos hptr] at henc
          simp only [Prod.mk.injEq] at henc
          exact Option.noConfusion henc.2.2
        · rw [if_neg hptr,
              show eucjp_enc_loop t (0 + utf8Len c) [] = ([], 0 + utf8Len c, none)
                from rfl] at henc
          obtain ⟨hfb, hlt⟩ := htab hptr
          simp only [encPrepend, Prod.mk.injEq, List.append_nil] at henc
          obtain ⟨hbs, hp, -⟩ := henc
          subst hbs
          rw [show ((t.bwd0208 c / 94 + 0xa1) % 256) = t.bwd0208 c / 94 + 0xa1
                from Nat.mod_eq_of_lt (by omega),
              show ((t.bwd0208 c % 94 + 0xa1) % 256) = t.bwd0208 c % 94 + 0xa1
                from Nat.mod_eq_of_lt (by omega),
              eucjp_raw_feed_clean t
                [t.bwd0208 c / 94 + 0xa1, t.bwd0208 c % 94 + 0xa1]]
          have hcoord : (t.bwd0208 c / 94 + 0xa1 - 0xa1) * 94 +
              (t.bwd0208 c % 94 + 0xa1) - 0xa1 = t.bwd0208 c := by omega
          have hne : t.fwd0208 ((t.bwd0208 c / 94 + 0xa1 - 0xa1) * 94 +
              (t.bwd0208 c % 94 + 0xa1) - 0xa1) ≠ 0xffff := by
            rw [hcoord, hfb]; exact hfff
          rw [eucjp_loop_pair_ok t _ _ (by omega) (by omega) (by omega) (by omega)
                hne, hcoord, hfb]
          rfl
  · intro t c bs p htab hfff ha5 h203e h80 henc
    rw [ShiftJISEncoder.raw_feed, sjis_enc_loop.eq_def] at henc
    dsimp only at henc
    by_cases hascii : c ≤ 0x80
    · rw [if_pos hascii,
          show sjis_enc_loop t (0 + utf8Len c) [] = ([], 0 + utf8Len c, none)
            from rfl] at henc
      simp only [encPrepend, Prod.mk.injEq, List.append_nil] at henc
      obtain ⟨hbs, hp, -⟩ := henc
      subst hbs
      exact (sjis_raw_feed_clean t [c]).trans (sjis_loop_ascii_ok t c (by omega))
    · by_cases hkat : 0xff61 ≤ c ∧ c ≤ 0xff9f
      · rw [if_neg hascii, if_neg ha5, if_neg h203e, if_pos hkat,
            show sjis_enc_loop t (0 + utf8Len c) [] = ([], 0 + utf8Len c, none)
              from rfl] at henc
        simp only [encPrepend, Prod.mk.injEq, List.append_nil] at henc
        obtain ⟨hbs, hp, -⟩ := henc
        subst hbs
        rw [show ((c - 0xff61 + 0xa1) % 256) = c - 0xff61 + 0xa1
              from Nat.mod_eq_of_lt (by omega),
            sjis_raw_feed_clean t [c - 0xff61 + 0xa1],
            sjis_loop_kat_ok t (c - 0xff61 + 0xa1) (by omega) (by omega),
            show 0xff61 + (c - 0xff61 + 0xa1) - 0xa1 = c from by omega]
        rfl
      · rw [if_neg hascii, if_neg ha5, if_neg h203e, if_neg hkat] at henc
        by_cases hptr : t.bwd0208 c = 0xffff
        · rw [if_pos hptr] at henc
          simp only [Prod.mk.injEq] at henc
          exact Option.noConfusion henc.2.2
        · rw [if_neg hptr,
              show sjis_enc_loop t (0 + utf8Len c) [] = ([], 0 + utf8Len c, none)
                from rfl] at henc
          obtain ⟨hfb, hlt⟩ := htab hptr
          simp only [encPrepend, Prod.mk.injEq, List.append_nil] at henc
          obtain ⟨hbs, hp, -⟩ := henc
          subst hbs
          rw [show ((t.bwd0208 c / 188 +
                  (if t.bwd0208 c / 188 < 0x1f then 0x81 else 0xc1)) % 256) =
                t.bwd0208 c / 188 +
                  (if t.bwd0208 c / 188 < 0x1f then 0x81 else 0xc1)
                from Nat.mod_eq_of_lt (by split <;> omega),
              show ((t.bwd0208 c % 188 +
                  (if t.bwd0208 c % 188 < 0x3f then 0x40 else 0x41)) % 256) =
                t.bwd0208 c % 188 +
                  (if t.bwd0208 c % 188 < 0x3f then 0x40 else 0x41)
                from Nat.mod_eq_of_lt (by split <;> omega)]
          have hne : t.fwd0208 (t.bwd0208 c) ≠ 0xffff := by rw [hfb]; exact hfff
          rw [sjis_raw_feed_clean t
                [t.bwd0208 c / 188 +
                   (if t.bwd0208 c / 188 < 0x1f then 0x81 else 0xc1),
                 t.bwd0208 c % 188 +
                   (if t.bwd0208 c % 188 < 0x3f then 0x40 else 0x41)],
              sjis_loop_pair_ok t (t.bwd0208 c) hlt hne, hfb]
          rfl

/-- C4 amended witness: the round trip through the concrete tables at
U+65E5 (EUC-JP bytes `0xC6 0xFC`) and U+672C (Shift-JIS bytes
`0x96 0x7B`). -/
theorem c4_amended_roundtrip_witness :
    EUCJPDecoder.raw_feed modelTables ⟨0, 0⟩ [0xc6, 0xfc] =
      .ok ⟨0, 0⟩ [0x65e5] 2 none ∧
    ShiftJISDecoder.raw_feed modelTables ⟨0⟩ [0x96, 0x7b] =
      .ok ⟨0⟩ [0x672c] 2 none :=
  ⟨c4_amended_roundtrip.1 modelTables 0x65e5 [0xc6, 0xfc] 3 (by decide)
     (by decide) (by decide) (by decide) (by decide),
   c4_amended_roundtrip.2 modelTables 0x672c [0x96, 0x7b] 3 (by decide)
     (by decide) (by decide) (by decide) (by decide) (by decide)⟩

/-- C8: the single-byte encoder processes code points left to right:
ASCII is emitted as one byte; a 16-bit code point with a mapped backward
index is emitted as `index + 0x80`; any other code point faults with
"unrepresentable character" at its (UTF-8 byte) position with all prior
code points' bytes already committed; concretely `"A" + U+FFFF + "B"`
commits `0x41` then fails, and re-feeding `"B"` succeeds with `0x42`. -/
theorem c8_singlebyte_encode_behavior :
    (∀ (t : SBTables) (pre : List Nat) (c : Nat) (cs : List Nat),
       (∀ x ∈ pre, sbRepresentable t x) → ¬ sbRepresentable t c →
       SingleByteEncoder.raw_feed t (pre ++ c :: cs) =
         (pre.map (sbEncChar t), utf8Length pre,
          some ⟨utf8Length pre + utf8Len c, "unrepresentable character"⟩)) ∧
    (∀ (t : SBTables) (c : Nat), c ≤ 0x7f →
       SingleByteEncoder.raw_feed t [c] = ([c], 1, none)) ∧
    (∀ (t : SBTables) (c : Nat), 0x80 ≤ c → c ≤ 0xffff →
       t.index_backward c ≠ 0xff → t.index_backward c < 0x80 →
       SingleByteEncoder.raw_feed t [c] =
         ([t.index_backward c + 0x80], utf8Len c, none)) ∧
    SingleByteEncoder.raw_feed modelSBTables [0x41, 0xffff, 0x42] =
      ([0x41], 1, some ⟨4, "unrepresentable character"⟩) ∧
    SingleByteEncoder.raw_feed modelSBTables [0x42] = ([0x42], 1, none) := by
  refine ⟨?_, ?_, ?_, by decide, by decide⟩
  · intro t pre c cs hpre hc
    rw [SingleByteEncoder.raw_feed, singlebyte_enc_loop_err t pre c cs 0 hpre hc]
    simp only [Nat.zero_add]
  · intro t c hc
    rw [SingleByteEncoder.raw_feed, singlebyte_enc_loop.eq_def]
    dsimp only
    rw [if_pos hc,
        show singlebyte_enc_loop t (0 + utf8Len c) [] = ([], 0 + utf8Len c, none)
          from rfl]
    simp only [encPrepend, List.append_nil, Nat.zero_add]
    rw [show utf8Len c = 1 from by unfold utf8Len; rw [if_pos hc]]
  · intro t c h1 h2 h3 h4
    rw [SingleByteEncoder.raw_feed, singlebyte_enc_loop.eq_def]
    dsimp only
    rw [if_neg (by omega : ¬ c ≤ 0x7f), if_pos ⟨h2, h3⟩,
        show singlebyte_enc_loop t (0 + utf8Len c) [] = ([], 0 + utf8Len c, none)
          from rfl]
    simp only [encPrepend, List.append_nil, Nat.zero_add]
    rw [Nat.mod_eq_of_lt (by omega : t.index_backward c + 0x80 < 256)]

/-- C8 witness: the error-locality conjunct applied at `"A" U+FFFF "B"`
over the modelled ISO-8859-2 page, and the mapped-index conjunct applied
at U+0100 over a one-entry test page. -/
theorem c8_singlebyte_encode_behavior_witness :
    SingleByteEncoder.raw_feed modelSBTables ([0x41] ++ 0xffff :: [0x42]) =
      ([(0x41 : Nat)].map (sbEncChar modelSBTables), utf8Length [0x41],
       some ⟨utf8Length [0x41] + utf8Len 0xffff, "unrepresentable character"⟩) ∧
    SingleByteEncoder.raw_feed testSBTables [0x100] =
      ([testSBTables.index_backward 0x100 + 0x80], utf8Len 0x100, none) :=
  ⟨c8_singlebyte_encode_behavior.1 modelSBTables [0x41] 0xffff [0x42]
     (by decide) (by decide),
   c8_singlebyte_encode_behavior.2.2.1 testSBTables 0x100 (by decide)
     (by decide) (by decide) (by decide)⟩

end RustEncoding
